import Mathlib

/-!
# Verification of the mold-analyzer core (`core/analysis.py`, `core/slide_core.py`)

A shallow embedding, over the real numbers, of the draft-angle analyzer,
parting-line estimator, undercut detector, wall-thickness aggregation and
slide-core planner of the repository.  The geometry-kernel calls (normal
evaluation at a UV parameter, curve evaluation, area/centroid, bounding box,
ray intersections) are modelled as data supplied to the functions: a `Face`
carries the kernel's normal evaluator, an `Edge` carries the two evaluated
adjacent-face normals and its curve, a bounding box carries its six extrema.
Everything downstream of those kernel values is translated directly from the
Python source.
-/

noncomputable section

namespace MoldAnalyzer

open Real

/-! ## Vectors (`gp_Vec` / `gp_Dir` / numpy 3-arrays) -/

/-- A 3-component real vector; models `gp_Vec`, `gp_Dir`, `gp_Pnt` and
numpy length-3 arrays. -/
structure Vec3 where
  x : ℝ
  y : ℝ
  z : ℝ

namespace Vec3

/-- Componentwise addition. -/
def add (a b : Vec3) : Vec3 := ⟨a.x + b.x, a.y + b.y, a.z + b.z⟩

/-- Componentwise subtraction (numpy `a - b`). -/
def sub (a b : Vec3) : Vec3 := ⟨a.x - b.x, a.y - b.y, a.z - b.z⟩

instance : Add Vec3 := ⟨add⟩
instance : Sub Vec3 := ⟨sub⟩

/-- Scalar multiple. -/
def smul (k : ℝ) (v : Vec3) : Vec3 := ⟨k * v.x, k * v.y, k * v.z⟩

/-- Dot product, as written out componentwise in the source. -/
def dot (a b : Vec3) : ℝ := a.x * b.x + a.y * b.y + a.z * b.z

/-- Models `gp_Vec.Magnitude()` / `np.linalg.norm`: the Euclidean norm. -/
def magnitude (v : Vec3) : ℝ := Real.sqrt (v.x ^ 2 + v.y ^ 2 + v.z ^ 2)

/-- Models `gp_Vec.Normalize()`: divide by the magnitude. -/
def normalize (v : Vec3) : Vec3 := smul (1 / v.magnitude) v

/-- Component along coordinate axis `i` (numpy `v[i]` for `i < 3`). -/
def nth (v : Vec3) : Fin 3 → ℝ
  | 0 => v.x
  | 1 => v.y
  | 2 => v.z

/-- numpy `v[i] = 0`: zero out one component. -/
def setZero (v : Vec3) : Fin 3 → Vec3
  | 0 => ⟨0, v.y, v.z⟩
  | 1 => ⟨v.x, 0, v.z⟩
  | 2 => ⟨v.x, v.y, 0⟩

end Vec3

/-! ## List helpers (Python `min`, `max`, `sum`, mean) -/

/-- Python `min(list)`; `0` on the empty list (on which Python raises,
reached by the source only behind non-emptiness checks). -/
def pymin : List ℝ → ℝ
  | [] => 0
  | x :: xs => xs.foldl min x

/-- Python `max(list)`; `0` on the empty list. -/
def pymax : List ℝ → ℝ
  | [] => 0
  | x :: xs => xs.foldl max x

/-- Models `sum(l) / len(l)`, the arithmetic mean used throughout the source. -/
def avgList (l : List ℝ) : ℝ := l.sum / l.length

/-- Models `math.degrees`. -/
def degrees (r : ℝ) : ℝ := r * 180 / Real.pi

/-! ## Surface types and draft categories -/

/-- Models `GeomAbs` surface types distinguished by `analyze_face`. -/
inductive SurfaceType
  | plane | cylinder | cone | sphere | torus | bspline | bezier | other

/-- The draft-category labels assigned by `analyze_face`. -/
inductive Category
  | good | marginal | insufficient | zero | horizontal | unknown
deriving DecidableEq

/-! ## Faces, as seen through the geometry kernel -/

/-- A face handle together with the kernel answers `analyze_face` queries:
surface type, area and centroid (`GProp`), the UV parameter range and the
normal evaluator (`BRepGProp_Face.Normal`). -/
structure Face where
  surfaceType : SurfaceType
  area : ℝ
  center : Vec3
  uMin : ℝ
  uMax : ℝ
  vMin : ℝ
  vMax : ℝ
  normalAt : ℝ → ℝ → Vec3

/-- Adaptive sample count by surface type (`analyze_face`, `n_samples <= 0`
branch): Plane 1, BSpline/Bezier 10, otherwise 5. -/
def adaptiveSamples : SurfaceType → ℕ
  | .plane => 1
  | .bspline => 10
  | .bezier => 10
  | _ => 5

/-- The effective grid size used by `analyze_face` (`n_samples` reassigned
when not positive). -/
def effSamples (f : Face) (nSamples : ℕ) : ℕ :=
  if nSamples = 0 then adaptiveSamples f.surfaceType else nSamples

/-- Models `u_min + (u_max - u_min) * (i + 0.5) / n`, the midpoint-offset UV grid. -/
def sampleParam (lo hi : ℝ) (n i : ℕ) : ℝ := lo + (hi - lo) * ((i : ℝ) + 0.5) / n

/-- The grid of kernel normals visited by the double sampling loop of
`analyze_face`, in loop order. -/
def sampledNormals (f : Face) (n : ℕ) : List Vec3 :=
  (List.range n).flatMap fun i =>
    (List.range n).map fun j =>
      f.normalAt (sampleParam f.uMin f.uMax n i) (sampleParam f.vMin f.vMax n j)

/-- The samples surviving the degeneracy test
`if normal.Magnitude() < 1e-10: continue`. -/
def validSampleNormals (f : Face) (n : ℕ) : List Vec3 :=
  (sampledNormals f n).filter fun v => decide (¬ v.magnitude < 1e-10)

/-- The `normals` list recorded by `analyze_face`: the valid samples,
normalized. -/
def unitNormals (f : Face) (n : ℕ) : List Vec3 :=
  (validSampleNormals f n).map Vec3.normalize

/-- The `raw_dots` list: signed dot products of each normalized sample
normal with the opening direction. -/
def rawDots (f : Face) (dir : Vec3) (n : ℕ) : List ℝ :=
  (unitNormals f n).map fun v => v.dot dir

/-- The `draft_angles` list:
`math.degrees(math.asin(min(abs(dot), 1.0)))` per valid sample. -/
def draftAngles (f : Face) (dir : Vec3) (n : ℕ) : List ℝ :=
  (rawDots f dir n).map fun d => degrees (Real.arcsin (min |d| 1))

/-- The record returned by `analyze_face` (the Python dict); `faceId` is
filled in by `analyze_all_faces` and defaults to `0` here. -/
structure FaceResult where
  faceId : ℕ
  surfaceType : SurfaceType
  area : ℝ
  minDraft : ℝ
  maxDraft : ℝ
  avgDraft : ℝ
  category : Category
  isUndercut : Bool
  center : Vec3
  normals : List Vec3

/-- Models `analyze_face`: per-face draft statistics, category and mixed-normal
undercut flag, translated clause by clause from the source. -/
def analyzeFace (f : Face) (dir : Vec3) (nSamples : ℕ) : FaceResult :=
  let n := effSamples f nSamples
  let da := draftAngles f dir n
  if da.isEmpty then
    { faceId := 0, surfaceType := f.surfaceType, area := f.area,
      minDraft := 0, maxDraft := 0, avgDraft := 0, category := .unknown,
      isUndercut := false, center := f.center, normals := [] }
  else
    let minD := pymin da
    let maxD := pymax da
    let avgD := avgList da
    let dots := rawDots f dir n
    let hasPos := dots.any fun d => decide (d > 0.05)
    let hasNeg := dots.any fun d => decide (d < -0.05)
    { faceId := 0, surfaceType := f.surfaceType, area := f.area,
      minDraft := minD, maxDraft := maxD, avgDraft := avgD,
      category :=
        if avgD > 85 then .horizontal
        else if minD ≥ 3 then .good
        else if minD ≥ 1 then .marginal
        else if minD ≥ 0.1 then .insufficient
        else .zero,
      isUndercut := hasPos && hasNeg && decide (avgD < 45),
      center := f.center, normals := unitNormals f n }

/-- Models `analyze_all_faces`: analyze every face with the default sample count and
assign `face_id` by insertion index. -/
def analyzeAllFaces (faces : List Face) (dir : Vec3) : List FaceResult :=
  faces.enum.map fun p => { analyzeFace p.2 dir 0 with faceId := p.1 }

/-- The draft-category rule, stated from the spec's words (§4.1): evaluated
in order, `avg_draft > 85` → Horizontal; else `min_draft ≥ 3` → Good;
`min_draft ≥ 1` → Marginal; `min_draft ≥ 0.1` → Insufficient; else Zero. -/
def specCategory (minD avgD : ℝ) : Category :=
  if avgD > 85 then .horizontal
  else if minD ≥ 3 then .good
  else if minD ≥ 1 then .marginal
  else if minD ≥ 0.1 then .insufficient
  else .zero

/-- A fixed opening direction, the default `gp_Dir(0, 0, 1)`. -/
def unitZ : Vec3 := ⟨0, 0, 1⟩

/-- A concrete planar face whose kernel normal is constantly `(0,0,1)`. -/
def faceW : Face :=
  { surfaceType := .plane, area := 1, center := ⟨0, 0, 0⟩,
    uMin := 0, uMax := 1, vMin := 0, vMax := 1,
    normalAt := fun _ _ => ⟨0, 0, 1⟩ }

/-- A concrete degenerate face whose kernel normal is constantly zero, so
every sample fails the `1e-10` magnitude test. -/
def faceDegen : Face :=
  { surfaceType := .cylinder, area := 2, center := ⟨1, 2, 3⟩,
    uMin := 0, uMax := 1, vMin := 0, vMax := 1,
    normalAt := fun _ _ => ⟨0, 0, 0⟩ }

/-! ## Edges and the parting-line estimator -/

/-- An edge of the solid as `_silhouette_parting_line` sees it through the
kernel: the number of adjacent faces (`face_list.Extent()`), the two
adjacent-face normals evaluated at each face's mid-UV point
(`BRepGProp_Face.Normal` at `(u1,v1)` / `(u2,v2)`), and the edge's curve
with its parameter range (`BRepAdaptor_Curve`). -/
structure Edge where
  nFaces : ℕ
  n1 : Vec3
  n2 : Vec3
  firstParam : ℝ
  lastParam : ℝ
  curve : ℝ → Vec3

/-- The points one edge contributes in `_silhouette_parting_line`: nothing
unless the edge is shared by exactly two faces, both normals are
non-degenerate, and the two signed dots with the opening direction have
product `< -0.01`; otherwise the `n_pts + 1 = 6` curve samples. -/
def edgeSilhouettePoints (dir : Vec3) (e : Edge) : List Vec3 :=
  if e.nFaces ≠ 2 then []
  else if e.n1.magnitude < 1e-10 ∨ e.n2.magnitude < 1e-10 then []
  else
    let dot1 := (e.n1.normalize).dot dir
    let dot2 := (e.n2.normalize).dot dir
    if dot1 * dot2 < -0.01 then
      (List.range 6).map fun k =>
        e.curve (e.firstParam + (e.lastParam - e.firstParam) * (k : ℝ) / 5)
    else []

/-- All silhouette points collected over the edges, in edge order. -/
def silhouettePoints (edges : List Edge) (dir : Vec3) : List Vec3 :=
  edges.flatMap (edgeSilhouettePoints dir)

/-- Models `_silhouette_parting_line`: the collected points and the mean of their
`Z` components when at least 3 points were found, `None` otherwise. -/
def silhouettePartingLine (edges : List Edge) (dir : Vec3) :
    Option (List Vec3 × ℝ) :=
  let pts := silhouettePoints edges dir
  if 3 ≤ pts.length then some (pts, avgList (pts.map Vec3.z)) else none

/-- The bounding box returned by `reader.get_bounding_box`; `dx`, `dy`, `dz`
are stored there as the differences of the extrema, so they are modelled as
derived fields. -/
structure Bbox where
  xmin : ℝ
  ymin : ℝ
  zmin : ℝ
  xmax : ℝ
  ymax : ℝ
  zmax : ℝ

/-- Models `dz = zmax - zmin` as `get_bounding_box` computes it. -/
def Bbox.dz (b : Bbox) : ℝ := b.zmax - b.zmin

/-- Python `int()` applied to a float: truncation toward zero. -/
def pyint (x : ℝ) : ℤ := if x < 0 then ⌈x⌉ else ⌊x⌋

/-- Python list-index semantics for `bins[idx]`: non-negative indices below
the length, negative indices counted from the end, anything else raises. -/
def pyListIdx (len : ℕ) (i : ℤ) : Option ℕ :=
  if 0 ≤ i ∧ i < (len : ℤ) then some i.toNat
  else if -(len : ℤ) ≤ i ∧ i < 0 then some (i + len).toNat
  else none

/-- Python `max` on a list of naturals (`max(bins)`); `0` on `[]`. -/
def pymaxNat : List ℕ → ℕ
  | [] => 0
  | x :: xs => xs.foldl max x

/-- The 20-bin centroid histogram fill loop of `estimate_parting_line`:
`idx = min(int((z - zmin) / bin_size), n_bins - 1); bins[idx] += 1`.
`none` models the `IndexError` raised when `idx < -20`. -/
def fillBins (zmin binSize : ℝ) (zs : List ℝ) : Option (List ℕ) :=
  zs.foldlM
    (fun bins zc =>
      let idx := min (pyint ((zc - zmin) / binSize)) 19
      match pyListIdx bins.length idx with
      | some k => some (bins.set k (bins.getD k 0 + 1))
      | none => none)
    (List.replicate 20 0)

/-- The histogram fallback estimate: the center of the most populated bin,
`zmin + (max_bin + 0.5) * bin_size` with `bin_size = (dz if dz > 0 else 1) / 20`
and `max_bin = bins.index(max(bins))`. -/
def histogramEstimate (b : Bbox) (zCenters : List ℝ) : Option ℝ :=
  let zRange := if b.dz > 0 then b.dz else 1
  let binSize := zRange / 20
  (fillBins b.zmin binSize zCenters).map fun bins =>
    b.zmin + ((bins.indexOf (pymaxNat bins) : ℝ) + 0.5) * binSize

/-- The `parting_method` recorded in the result dict. -/
inductive PartingMethod
  | silhouette | histogram
deriving DecidableEq

/-- The result dict of `estimate_parting_line` (the `bbox` entry is the
input bounding box and is omitted). -/
structure PartingInfo where
  partingZ : ℝ
  zMid : ℝ
  upperCount : ℕ
  lowerCount : ℕ
  verticalCount : ℕ
  verticalIds : List ℕ
  silhouettePts : List Vec3
  method : PartingMethod

/-- Mean `Z` component of a face result's recorded normals (`avg_nz`). -/
def avgNZ (r : FaceResult) : ℝ := avgList (r.normals.map Vec3.z)

/-- Models `estimate_parting_line`: silhouette method first, histogram fallback,
plus the upper/lower/vertical side classification.  `none` models the
`IndexError` the histogram loop can raise on a centroid far below `zmin`. -/
def estimatePartingLine (edges : List Edge) (b : Bbox)
    (faceResults : List FaceResult) (dir : Vec3) : Option PartingInfo :=
  let zMid := (b.zmin + b.zmax) / 2
  let classified := faceResults.filter fun r => !r.normals.isEmpty
  let upper := (classified.filter fun r => decide (avgNZ r > 0.1)).map FaceResult.faceId
  let lower := (classified.filter fun r =>
    !decide (avgNZ r > 0.1) && decide (avgNZ r < -0.1)).map FaceResult.faceId
  let vertical := (classified.filter fun r =>
    !decide (avgNZ r > 0.1) && !decide (avgNZ r < -0.1)).map FaceResult.faceId
  match silhouettePartingLine edges dir with
  | some (pts, sz) =>
      some { partingZ := sz, zMid := zMid, upperCount := upper.length,
             lowerCount := lower.length, verticalCount := vertical.length,
             verticalIds := vertical, silhouettePts := pts,
             method := .silhouette }
  | none =>
      let zCenters := faceResults.map fun r => r.center.z
      if zCenters.isEmpty then
        some { partingZ := zMid, zMid := zMid, upperCount := upper.length,
               lowerCount := lower.length, verticalCount := vertical.length,
               verticalIds := vertical, silhouettePts := [],
               method := .histogram }
      else
        (histogramEstimate b zCenters).map fun est =>
          { partingZ := est, zMid := zMid, upperCount := upper.length,
            lowerCount := lower.length, verticalCount := vertical.length,
            verticalIds := vertical, silhouettePts := [],
            method := .histogram }


/-- A concrete bounding box with `zmin = 0`, `zmax = 20`. -/
def bW : Bbox := ⟨0, 0, 0, 10, 10, 20⟩

/-- A concrete face result with centroid `(0, 0, 5)` and no normal samples. -/
def frW : FaceResult :=
  { faceId := 0, surfaceType := .plane, area := 1, minDraft := 0, maxDraft := 0,
    avgDraft := 0, category := .unknown, isUndercut := false,
    center := ⟨0, 0, 5⟩, normals := [] }


/-- The opening direction `gp_Dir(1, 0, 0)`: opening along the X axis. -/
def dirX : Vec3 := ⟨1, 0, 0⟩

/-- A concrete silhouette edge for opening direction X: shared by exactly two
faces whose evaluated normals are `(1,0,0)` and `(-1,0,0)`, with curve
`t ↦ (t, 0, 7)` over `[0, 1]`. -/
def edgeC4 : Edge :=
  { nFaces := 2, n1 := ⟨1, 0, 0⟩, n2 := ⟨-1, 0, 0⟩,
    firstParam := 0, lastParam := 1, curve := fun t => ⟨t, 0, 7⟩ }


/-! ## The undercut detector (`detect_undercuts`) -/

/-- The classified undercut reasons (the source stores Korean strings; the
`insufficientDraft` string also embeds the formatted average draft). -/
inductive UndercutReason
  | cavitySide | coreSide | insufficientDraft | mixedNormals
deriving DecidableEq

/-- The record appended to the `undercuts` list by `detect_undercuts`. -/
structure Undercut where
  faceId : ℕ
  reason : UndercutReason
  center : Vec3
  avgDraft : ℝ
  surfaceType : SurfaceType
  area : ℝ

/-- The body of the `detect_undercuts` loop for one face result, translated
statement by statement: the two mutable variables `is_undercut` / `reason`
are threaded as a pair through the three sequential `if`s, and the final
append guard is `is_undercut or result.get("is_undercut")` with
`reason or <mixed-normals string>`. -/
def undercutOfFace (partingZ : ℝ) (r : FaceResult) : Option Undercut :=
  if r.normals.isEmpty then none
  else if r.avgDraft > 80 then none
  else
    let centerZ := r.center.z
    let avgNz := avgList (r.normals.map Vec3.z)
    let s1 : Bool × Option UndercutReason :=
      if centerZ > partingZ ∧ avgNz < -0.1 ∧ r.avgDraft < 45 then
        (true, some .cavitySide)
      else (false, none)
    let s2 :=
      if centerZ < partingZ ∧ avgNz > 0.1 ∧ r.avgDraft < 45 then
        (true, some .coreSide)
      else s1
    let s3 :=
      if r.avgDraft < 0.5 ∧ s2.1 = false then (true, some .insufficientDraft)
      else s2
    if s3.1 || r.isUndercut then
      some { faceId := r.faceId, reason := s3.2.getD .mixedNormals,
             center := r.center, avgDraft := r.avgDraft,
             surfaceType := r.surfaceType, area := r.area }
    else none

/-- Models `detect_undercuts`: one pass over the face results, appending at most one
record per face.  The `opening_dir` parameter mirrors the source signature;
the source never reads it (it works with Z components throughout). -/
def detectUndercuts (faceResults : List FaceResult) (partingZ : ℝ)
    (dir : Vec3) : List Undercut :=
  faceResults.filterMap (undercutOfFace partingZ)

/-- The undercut rule as the claim orders it (with the Z axis, which is what
the source uses): skip degenerate or near-horizontal faces; else first match
of cavity-side, core-side, insufficient-draft, then the mixed-normal flag. -/
def specUndercutRule (partingZ : ℝ) (r : FaceResult) : Option Undercut :=
  if r.normals.isEmpty then none
  else if r.avgDraft > 80 then none
  else if r.center.z > partingZ ∧ avgList (r.normals.map Vec3.z) < -0.1 ∧
      r.avgDraft < 45 then
    some { faceId := r.faceId, reason := .cavitySide, center := r.center,
           avgDraft := r.avgDraft, surfaceType := r.surfaceType,
           area := r.area }
  else if r.center.z < partingZ ∧ avgList (r.normals.map Vec3.z) > 0.1 ∧
      r.avgDraft < 45 then
    some { faceId := r.faceId, reason := .coreSide, center := r.center,
           avgDraft := r.avgDraft, surfaceType := r.surfaceType,
           area := r.area }
  else if r.avgDraft < 0.5 then
    some { faceId := r.faceId, reason := .insufficientDraft,
           center := r.center, avgDraft := r.avgDraft,
           surfaceType := r.surfaceType, area := r.area }
  else if r.isUndercut then
    some { faceId := r.faceId, reason := .mixedNormals, center := r.center,
           avgDraft := r.avgDraft, surfaceType := r.surfaceType,
           area := r.area }
  else none

/-- A concrete face result: centroid `(5,0,0)`, single normal `(-1,0,0)`,
average draft `1`.  With opening direction X and parting coordinate `0` the
claim's cavity-side conditions all hold along the X axis. -/
def frC6 : FaceResult :=
  { faceId := 0, surfaceType := .plane, area := 1, minDraft := 1, maxDraft := 1,
    avgDraft := 1, category := .marginal, isUndercut := false,
    center := ⟨5, 0, 0⟩, normals := [⟨-1, 0, 0⟩] }

/-! ## Wall-thickness aggregation (`analyze_wall_thickness`) -/

/-- One raycast sample of `analyze_wall_thickness`: `params` are the
intersection parameters the kernel returns (`intersector.WParameter(k)`).
The loop adds `OFFSET = 0.02`, keeps only distances above `OFFSET * 3`, and
records the minimum if any survive. -/
def sampleThickness (params : List ℝ) : Option ℝ :=
  let cands := (params.map fun w => w + 0.02).filter fun d =>
    decide (d > 0.02 * 3)
  if cands.isEmpty then none else some (pymin cands)

/-- Models `all_thicknesses`: every successful sample over every face, in loop
order.  Each face is given as the list of its samples' kernel intersection
parameter lists (samples skipped for degenerate normals or raised
intersection errors are absent). -/
def allThicknesses (faces : List (List (List ℝ))) : List ℝ :=
  faces.flatMap fun face => face.filterMap sampleThickness

/-- Global `min_t` (`0` when no sample succeeded, per the `else` branch). -/
def minT (faces : List (List (List ℝ))) : ℝ :=
  if (allThicknesses faces).isEmpty then 0 else pymin (allThicknesses faces)

/-- Global `max_t` (`0` when no sample succeeded). -/
def maxT (faces : List (List (List ℝ))) : ℝ :=
  if (allThicknesses faces).isEmpty then 0 else pymax (allThicknesses faces)

/-- Models `thickness_ratio = max_t / max(min_t, 0.01)`. -/
def thicknessRatio (faces : List (List (List ℝ))) : ℝ :=
  maxT faces / max (minT faces) 0.01

/-! ## The slide-core planner (`slide_core.py`) -/

instance : Inhabited Vec3 := ⟨⟨0, 0, 0⟩⟩

/-- Models `dx = xmax - xmin` as `get_bounding_box` computes it. -/
def Bbox.dx (b : Bbox) : ℝ := b.xmax - b.xmin

/-- Models `dy = ymax - ymin` as `get_bounding_box` computes it. -/
def Bbox.dy (b : Bbox) : ℝ := b.ymax - b.ymin

/-- Models `bbox[["dx", "dy", "dz"][axis_index]]`. -/
def bboxExtent (b : Bbox) : Fin 3 → ℝ
  | 0 => b.dx
  | 1 => b.dy
  | 2 => b.dz

/-- Models `_get_canonical_directions`: the per-axis tables of 8 slide directions
(4 cardinal + 4 diagonal, the diagonals divided by `sqrt 2`) in the plane
orthogonal to the opening axis, in the dict's insertion order. -/
def canonicalDirections (axis : Fin 3) : List (String × Vec3) :=
  if axis = 0 then
    [("+Y", ⟨0, 1, 0⟩), ("-Y", ⟨0, -1, 0⟩),
     ("+Z", ⟨0, 0, 1⟩), ("-Z", ⟨0, 0, -1⟩),
     ("+Y+Z", ⟨0, 1 / Real.sqrt 2, 1 / Real.sqrt 2⟩),
     ("+Y-Z", ⟨0, 1 / Real.sqrt 2, -(1 / Real.sqrt 2)⟩),
     ("-Y+Z", ⟨0, -(1 / Real.sqrt 2), 1 / Real.sqrt 2⟩),
     ("-Y-Z", ⟨0, -(1 / Real.sqrt 2), -(1 / Real.sqrt 2)⟩)]
  else if axis = 1 then
    [("+X", ⟨1, 0, 0⟩), ("-X", ⟨-1, 0, 0⟩),
     ("+Z", ⟨0, 0, 1⟩), ("-Z", ⟨0, 0, -1⟩),
     ("+X+Z", ⟨1 / Real.sqrt 2, 0, 1 / Real.sqrt 2⟩),
     ("+X-Z", ⟨1 / Real.sqrt 2, 0, -(1 / Real.sqrt 2)⟩),
     ("-X+Z", ⟨-(1 / Real.sqrt 2), 0, 1 / Real.sqrt 2⟩),
     ("-X-Z", ⟨-(1 / Real.sqrt 2), 0, -(1 / Real.sqrt 2)⟩)]
  else
    [("+X", ⟨1, 0, 0⟩), ("-X", ⟨-1, 0, 0⟩),
     ("+Y", ⟨0, 1, 0⟩), ("-Y", ⟨0, -1, 0⟩),
     ("+X+Y", ⟨1 / Real.sqrt 2, 1 / Real.sqrt 2, 0⟩),
     ("+X-Y", ⟨1 / Real.sqrt 2, -(1 / Real.sqrt 2), 0⟩),
     ("-X+Y", ⟨-(1 / Real.sqrt 2), 1 / Real.sqrt 2, 0⟩),
     ("-X-Y", ⟨-(1 / Real.sqrt 2), -(1 / Real.sqrt 2), 0⟩)]

/-- Componentwise mean, `np.mean(·, axis=0)`. -/
def meanVec (l : List Vec3) : Vec3 :=
  ⟨avgList (l.map Vec3.x), avgList (l.map Vec3.y), avgList (l.map Vec3.z)⟩

/-- Componentwise minimum, `np.min(·, axis=0)` (source use is on non-empty
lists only). -/
def minVec (l : List Vec3) : Vec3 :=
  ⟨pymin (l.map Vec3.x), pymin (l.map Vec3.y), pymin (l.map Vec3.z)⟩

/-- Componentwise maximum, `np.max(·, axis=0)`. -/
def maxVec (l : List Vec3) : Vec3 :=
  ⟨pymax (l.map Vec3.x), pymax (l.map Vec3.y), pymax (l.map Vec3.z)⟩

/-- The unit vector of coordinate axis `i` (`default[i] = 1` on zeros). -/
def basisVec : Fin 3 → Vec3
  | 0 => ⟨1, 0, 0⟩
  | 1 => ⟨0, 1, 0⟩
  | 2 => ⟨0, 0, 1⟩

/-- Models `_nearest_canonical`: scan the table in order keeping the best dot
product (initial best `-999` with the first key), then return the chosen
name and its dict entry. -/
def nearestCanonical (direction : Vec3) (axis : Fin 3) : String × Vec3 :=
  let dirs := canonicalDirections axis
  let best := dirs.foldl
    (fun acc nc =>
      if Vec3.dot direction nc.2 > acc.2 then (nc.1, Vec3.dot direction nc.2)
      else acc)
    ((dirs.headI).1, -999)
  (best.1, ((dirs.find? fun nc => decide (nc.1 = best.1)).getD dirs.headI).2)

/-- Models `_compute_slide_direction`: mean of the normals, opening-axis component
zeroed, normalized; the default direction `(axis + 1) % 3` on an empty list
or a near-degenerate projection. -/
def computeSlideDirection (normals : List Vec3) (axis : Fin 3) : Vec3 :=
  if normals.isEmpty then basisVec (axis + 1)
  else
    let projected := (meanVec normals).setZero axis
    let n := projected.magnitude
    if n < 1e-10 then basisVec (axis + 1)
    else Vec3.smul (1 / n) projected

/-- One entry of the `uc_data` list built by `group_undercuts`. -/
structure UcData where
  faceId : ℕ
  center : Vec3
  horizontalDir : Vec3
  normals : List Vec3
  area : ℝ
  surfaceType : SurfaceType
  reason : UndercutReason

/-- Models the `result_map` dict comprehension keyed by face id — later
entries with the same id win — followed by the two-level `.get` with
defaults of the empty dict and the empty normals list. -/
def lookupNormals (frs : List FaceResult) (fid : ℕ) : List Vec3 :=
  ((frs.reverse.find? fun r => decide (r.faceId = fid)).map
      FaceResult.normals).getD []

/-- The horizontal direction of one undercut: the average normal projected
onto the plane orthogonal to the opening axis and normalized; the zero
vector when there are no normals or the projection is near-degenerate. -/
def horizontalDirOf (normals : List Vec3) (axis : Fin 3) : Vec3 :=
  if normals.isEmpty then ⟨0, 0, 0⟩
  else
    let projected := (meanVec normals).setZero axis
    let h := projected.magnitude
    if h > 1e-10 then Vec3.smul (1 / h) projected else ⟨0, 0, 0⟩

/-- One `uc_data` entry from one undercut record. -/
def toUcData (frs : List FaceResult) (axis : Fin 3) (uc : Undercut) : UcData :=
  { faceId := uc.faceId, center := uc.center,
    horizontalDir := horizontalDirOf (lookupNormals frs uc.faceId) axis,
    normals := lookupNormals frs uc.faceId,
    area := uc.area, surfaceType := uc.surfaceType, reason := uc.reason }

/-- The `uc_data` list, in input order. -/
def ucDataList (ucs : List Undercut) (frs : List FaceResult)
    (axis : Fin 3) : List UcData :=
  ucs.map (toUcData frs axis)

/-- The merge test of the inner clustering loop: `continue` when the
centroid distance exceeds the threshold, and — when both horizontal
directions are meaningful — when the angular difference
`degrees(acos(min(|dot|, 1)))` exceeds the angle threshold. -/
def sameGroupB (distTh angleTh : ℝ) (di dj : UcData) : Bool :=
  !decide (Vec3.magnitude (di.center - dj.center) > distTh) &&
    (!(decide (di.horizontalDir.magnitude > 0.1) &&
        decide (dj.horizontalDir.magnitude > 0.1)) ||
      !decide (degrees (Real.arccos
          (min |Vec3.dot di.horizontalDir dj.horizontalDir| 1)) > angleTh))

/-- The greedy single-pass clustering of `group_undercuts` over the `used`
flags: the first unassigned undercut seeds a group and every later
unassigned undercut passing the merge test joins it; the rest are processed
recursively. -/
def greedyGroups (distTh angleTh : ℝ) : List UcData → List (List UcData)
  | [] => []
  | seed :: rest =>
    (seed :: rest.filter (sameGroupB distTh angleTh seed)) ::
      greedyGroups distTh angleTh
        (rest.filter fun d => !sameGroupB distTh angleTh seed d)
termination_by l => l.length
decreasing_by
  simp only [List.length_cons]
  exact Nat.lt_succ_of_le (List.length_filter_le _ _)

/-- Models `group_undercuts` (thresholds default to 20 mm and 45° at the call
sites). -/
def groupUndercuts (ucs : List Undercut) (frs : List FaceResult)
    (distTh angleTh : ℝ) (axis : Fin 3) : List (List UcData) :=
  if ucs.isEmpty then []
  else greedyGroups distTh angleTh (ucDataList ucs frs axis)

/-- The `core_type` classification of `analyze_slide_cores`. -/
inductive CoreType
  | slide | lifter | lifterOrSlide
deriving DecidableEq

/-- The `core_type` default instance for list lookups. -/
instance : Inhabited CoreType := ⟨.slide⟩

/-- The slide record built by `analyze_slide_cores` (Korean display strings
omitted). -/
structure Slide where
  id : ℕ
  coreType : CoreType
  directionName : String
  directionVector : Vec3
  slideDirRaw : Vec3
  faceIds : List ℕ
  faceCount : ℕ
  center : Vec3
  bboxMin : Vec3
  bboxMax : Vec3
  totalArea : ℝ
  undercutDepth : ℝ
  stroke : ℝ
  slideWidth : ℝ
  slideHeight : ℝ
  slideLength : ℝ
  angularPinAngle : ℝ
  nearParting : Bool

instance : Inhabited Slide :=
  ⟨⟨0, .slide, "", ⟨0, 0, 0⟩, ⟨0, 0, 0⟩, [], 0, ⟨0, 0, 0⟩, ⟨0, 0, 0⟩,
    ⟨0, 0, 0⟩, 0, 0, 0, 0, 0, 0, 0, false⟩⟩

/-- The body of the `analyze_slide_cores` loop for one enumerated group;
`none` models the `continue` on a group without normals.  `atan2(stroke, 40)`
is `arctan (stroke / 40)` since both arguments are positive. -/
def slideOfGroup (b : Bbox) (partingZ : ℝ) (axis : Fin 3) (groupIdx : ℕ)
    (group : List UcData) : Option Slide :=
  let allNormals := group.flatMap UcData.normals
  let allCenters := group.map UcData.center
  let totalArea := (group.map UcData.area).sum
  if allNormals.isEmpty then none
  else
    let slideDir := computeSlideDirection allNormals axis
    let nc := nearestCanonical slideDir axis
    let groupMin := minVec allCenters
    let groupMax := maxVec allCenters
    let groupCenter := meanVec allCenters
    let projections := allCenters.map fun c => |Vec3.dot (c - groupCenter) nc.2|
    let ucDepth := max (if projections.isEmpty then 5 else pymax projections) 2
    let stroke := ucDepth + 3
    let dx := groupMax.x - groupMin.x + 10
    let dy := groupMax.y - groupMin.y + 10
    let dz := groupMax.z - groupMin.z + 10
    let slideWidth := if |nc.2.x| > 0.5 then dy else dx
    let avgAx := groupCenter.nth axis
    let nearParting := decide (|avgAx - partingZ| < bboxExtent b axis * 0.15)
    let smallArea := decide (totalArea < 100)
    some { id := groupIdx + 1,
           coreType :=
             if nearParting && smallArea then CoreType.lifter
             else if nearParting then CoreType.lifterOrSlide
             else CoreType.slide,
           directionName := nc.1, directionVector := nc.2,
           slideDirRaw := slideDir,
           faceIds := group.map UcData.faceId, faceCount := group.length,
           center := groupCenter, bboxMin := groupMin, bboxMax := groupMax,
           totalArea := totalArea, undercutDepth := ucDepth, stroke := stroke,
           slideWidth := slideWidth, slideHeight := dz,
           slideLength := stroke + 15,
           angularPinAngle :=
             min 25 (max 15 (degrees (Real.arctan (stroke / 40)))),
           nearParting := nearParting }

/-- Models `analyze_slide_cores`: analyze each enumerated group (ids start at 1)
and sort by total area, descending (Python's stable `sort` with
`reverse=True`). -/
def analyzeSlideCores (groups : List (List UcData)) (b : Bbox)
    (partingZ : ℝ) (axis : Fin 3) : List Slide :=
  (groups.enum.filterMap fun p => slideOfGroup b partingZ axis p.1 p.2).mergeSort
    fun s t => decide (t.totalArea ≤ s.totalArea)

/-- A concrete one-undercut group: one face with normal `(1,0,0)`. -/
def groupW : List UcData :=
  [{ faceId := 1, center := ⟨0, 0, 0⟩, horizontalDir := ⟨1, 0, 0⟩,
     normals := [⟨1, 0, 0⟩], area := 1, surfaceType := .plane,
     reason := .cavitySide }]

/-- Scenario-C undercut: centroid at the origin, face id 1. -/
def ucW1 : Undercut :=
  { faceId := 1, reason := .cavitySide, center := ⟨0, 0, 0⟩, avgDraft := 1,
    surfaceType := .plane, area := 1 }

/-- Scenario-C undercut: centroid 5 mm away along X, face id 2. -/
def ucW2 : Undercut :=
  { faceId := 2, reason := .cavitySide, center := ⟨5, 0, 0⟩, avgDraft := 1,
    surfaceType := .plane, area := 1 }

/-- Face result for `ucW1`: single normal `(1, 0, 0)`. -/
def frW1 : FaceResult :=
  { faceId := 1, surfaceType := .plane, area := 1, minDraft := 1,
    maxDraft := 1, avgDraft := 1, category := .marginal, isUndercut := false,
    center := ⟨0, 0, 0⟩, normals := [⟨1, 0, 0⟩] }

/-- Face result for `ucW2`: single normal 10° away from `(1, 0, 0)` in the
horizontal plane. -/
def frW2 : FaceResult :=
  { faceId := 2, surfaceType := .plane, area := 1, minDraft := 1,
    maxDraft := 1, avgDraft := 1, category := .marginal, isUndercut := false,
    center := ⟨5, 0, 0⟩,
    normals := [⟨Real.cos (Real.pi / 18), Real.sin (Real.pi / 18), 0⟩] }

/-! ## Basic lemmas about the helpers -/

lemma foldl_min_mem {α : Type*} [LinearOrder α] (x : α) (xs : List α) :
    xs.foldl min x ∈ x :: xs := by
  induction xs generalizing x with
  | nil => simp
  | cons y ys ih =>
    simp only [List.foldl_cons]
    rcases List.mem_cons.mp (ih (min x y)) with h | h
    · rw [h]; rcases min_choice x y with h' | h' <;> rw [h'] <;> simp
    · simp [h]

lemma foldl_max_mem {α : Type*} [LinearOrder α] (x : α) (xs : List α) :
    xs.foldl max x ∈ x :: xs := by
  induction xs generalizing x with
  | nil => simp
  | cons y ys ih =>
    simp only [List.foldl_cons]
    rcases List.mem_cons.mp (ih (max x y)) with h | h
    · rw [h]; rcases max_choice x y with h' | h' <;> rw [h'] <;> simp
    · simp [h]

lemma pymin_mem {l : List ℝ} (h : l ≠ []) : pymin l ∈ l := by
  match l with
  | x :: xs => exact foldl_min_mem x xs

lemma pymax_mem {l : List ℝ} (h : l ≠ []) : pymax l ∈ l := by
  match l with
  | x :: xs => exact foldl_max_mem x xs

lemma avgList_bounds {l : List ℝ} (hne : l ≠ [])
    (h : ∀ d ∈ l, 0 ≤ d ∧ d ≤ 90) : 0 ≤ avgList l ∧ avgList l ≤ 90 := by
  have hlen : 0 < (l.length : ℝ) := by
    have := List.length_pos.mpr hne
    exact_mod_cast this
  have hsum0 : 0 ≤ l.sum := List.sum_nonneg fun d hd => (h d hd).1
  have hsum90 : l.sum ≤ (l.length : ℝ) * 90 := by
    have := List.sum_le_card_nsmul l 90 fun d hd => (h d hd).2
    simpa [nsmul_eq_mul] using this
  constructor
  · exact div_nonneg hsum0 hlen.le
  · rw [avgList, div_le_iff₀ hlen]
    linarith

lemma draftDeg_nonneg (w : ℝ) : 0 ≤ degrees (Real.arcsin (min |w| 1)) := by
  have h1 : 0 ≤ Real.arcsin (min |w| 1) :=
    Real.arcsin_nonneg.mpr (le_min (abs_nonneg w) one_pos.le)
  have := Real.pi_pos
  exact div_nonneg (by positivity) this.le

lemma draftDeg_le_90 (w : ℝ) : degrees (Real.arcsin (min |w| 1)) ≤ 90 := by
  have h2 : Real.arcsin (min |w| 1) ≤ Real.pi / 2 := Real.arcsin_le_pi_div_two _
  have hpi := Real.pi_pos
  rw [degrees, div_le_iff₀ hpi]
  nlinarith

/-! ## Claim C1 -/

/-- C1: for every face, opening direction and sample-count argument, each
recorded draft angle is `degrees (arcsin (min |dot| 1))` for the dot product
of the corresponding normalized valid sample normal with the opening
direction, each lies in `[0, 90]`, and consequently `min_draft`, `avg_draft`
and `max_draft` returned by `analyze_face` lie in `[0, 90]` whenever at least
one valid sample exists. -/
theorem analyzeFace_draft_formula_and_range (f : Face) (dir : Vec3) (nS : ℕ) :
    draftAngles f dir (effSamples f nS) =
      (validSampleNormals f (effSamples f nS)).map
        (fun v => degrees (Real.arcsin (min |Vec3.dot (Vec3.normalize v) dir| 1))) ∧
    (∀ d ∈ draftAngles f dir (effSamples f nS), 0 ≤ d ∧ d ≤ 90) ∧
    ((draftAngles f dir (effSamples f nS)).isEmpty = false →
      0 ≤ (analyzeFace f dir nS).minDraft ∧ (analyzeFace f dir nS).minDraft ≤ 90 ∧
      0 ≤ (analyzeFace f dir nS).avgDraft ∧ (analyzeFace f dir nS).avgDraft ≤ 90 ∧
      0 ≤ (analyzeFace f dir nS).maxDraft ∧ (analyzeFace f dir nS).maxDraft ≤ 90) := by
  have hform : draftAngles f dir (effSamples f nS) =
      (validSampleNormals f (effSamples f nS)).map
        (fun v => degrees (Real.arcsin (min |Vec3.dot (Vec3.normalize v) dir| 1))) := by
    simp [draftAngles, rawDots, unitNormals, List.map_map, Function.comp]
  have hbnd : ∀ d ∈ draftAngles f dir (effSamples f nS), 0 ≤ d ∧ d ≤ 90 := by
    intro d hd
    rw [draftAngles, List.mem_map] at hd
    obtain ⟨w, _, rfl⟩ := hd
    exact ⟨draftDeg_nonneg w, draftDeg_le_90 w⟩
  refine ⟨hform, hbnd, fun hne => ?_⟩
  have hne' : draftAngles f dir (effSamples f nS) ≠ [] := by
    intro h0; rw [h0] at hne; simp at hne
  have hmin := hbnd _ (pymin_mem hne')
  have hmax := hbnd _ (pymax_mem hne')
  have havg := avgList_bounds hne' hbnd
  simp only [analyzeFace, hne, Bool.false_eq_true, if_false]
  exact ⟨hmin.1, hmin.2, havg.1, havg.2, hmax.1, hmax.2⟩

/-- C1 witness: the planar face with constant normal `(0,0,1)` yields a
non-empty draft list, and its recorded statistics lie in `[0, 90]`. -/
theorem analyzeFace_draft_formula_and_range_witness :
    (draftAngles faceW unitZ (effSamples faceW 0)).isEmpty = false ∧
    0 ≤ (analyzeFace faceW unitZ 0).minDraft ∧
    (analyzeFace faceW unitZ 0).minDraft ≤ 90 := by
  have hne : (draftAngles faceW unitZ (effSamples faceW 0)).isEmpty = false := by
    simp only [draftAngles, rawDots, unitNormals, validSampleNormals, sampledNormals,
      effSamples, adaptiveSamples, faceW]
    norm_num [Vec3.magnitude, List.filter]
  have h := (analyzeFace_draft_formula_and_range faceW unitZ 0).2.2 hne
  exact ⟨hne, h.1, h.2.1⟩

/-! ## Claim C2 -/

/-- C2: for every face with at least one valid normal sample, the category
returned by `analyze_face` is the deterministic ordered rule of §4.1 applied
to `(min_draft, avg_draft)`; in particular `min_draft = 0` yields Zero unless
`avg_draft > 85`, in which case Horizontal. -/
theorem analyzeFace_category_rule (f : Face) (dir : Vec3) (nS : ℕ)
    (hne : (draftAngles f dir (effSamples f nS)).isEmpty = false) :
    (analyzeFace f dir nS).category =
      specCategory (analyzeFace f dir nS).minDraft (analyzeFace f dir nS).avgDraft ∧
    ((analyzeFace f dir nS).minDraft = 0 →
      (analyzeFace f dir nS).category =
        if (analyzeFace f dir nS).avgDraft > 85 then Category.horizontal
        else Category.zero) := by
  simp only [analyzeFace, hne, Bool.false_eq_true, if_false]
  constructor
  · rw [specCategory]
  · intro h0
    rw [h0]
    by_cases h85 : avgList (draftAngles f dir (effSamples f nS)) > 85
    · rw [if_pos h85, if_pos h85]
    · rw [if_neg h85, if_neg h85, if_neg (by norm_num), if_neg (by norm_num),
        if_neg (by norm_num)]

/-- C2 witness: the category rule instantiated on the concrete planar face
with constant normal `(0,0,1)`. -/
theorem analyzeFace_category_rule_witness :
    (analyzeFace faceW unitZ 0).category =
      specCategory (analyzeFace faceW unitZ 0).minDraft
        (analyzeFace faceW unitZ 0).avgDraft := by
  have hne : (draftAngles faceW unitZ (effSamples faceW 0)).isEmpty = false := by
    simp only [draftAngles, rawDots, unitNormals, validSampleNormals, sampledNormals,
      effSamples, adaptiveSamples, faceW]
    norm_num [Vec3.magnitude, List.filter]
  exact (analyzeFace_category_rule faceW unitZ 0 hne).1

/-! ## Claim C3 -/

/-- C3: `analyze_all_faces` returns exactly one result per input face, in
input order with `face_id` equal to the insertion index, and a face whose
samples are all skipped yields the well-formed Unknown result: category
Unknown, zero draft statistics, undercut flag false, empty normals list.
(The model functions are total: no input face is dropped and no face
throws.) -/
theorem analyzeAllFaces_order_and_degenerate (faces : List Face) (dir : Vec3) :
    (analyzeAllFaces faces dir).length = faces.length ∧
    (∀ i f, faces[i]? = some f →
      (analyzeAllFaces faces dir)[i]? =
        some { analyzeFace f dir 0 with faceId := i }) ∧
    (∀ f : Face, (draftAngles f dir (effSamples f 0)).isEmpty = true →
      analyzeFace f dir 0 =
        { faceId := 0, surfaceType := f.surfaceType, area := f.area,
          minDraft := 0, maxDraft := 0, avgDraft := 0,
          category := Category.unknown, isUndercut := false,
          center := f.center, normals := [] }) := by
  refine ⟨by simp [analyzeAllFaces], fun i f hf => ?_, fun f hdeg => ?_⟩
  · simp [analyzeAllFaces, List.getElem?_enum, hf]
  · simp only [analyzeFace, hdeg, if_true]

/-- C3 witness: a one-face list whose face is degenerate (constant zero
kernel normal) yields exactly the Unknown result at index 0. -/
theorem analyzeAllFaces_order_and_degenerate_witness :
    (analyzeAllFaces [faceDegen] unitZ)[0]? =
      some { analyzeFace faceDegen unitZ 0 with faceId := 0 } ∧
    analyzeFace faceDegen unitZ 0 =
      { faceId := 0, surfaceType := faceDegen.surfaceType, area := faceDegen.area,
        minDraft := 0, maxDraft := 0, avgDraft := 0,
        category := Category.unknown, isUndercut := false,
        center := faceDegen.center, normals := [] } := by
  have h := analyzeAllFaces_order_and_degenerate [faceDegen] unitZ
  refine ⟨h.2.1 0 faceDegen (by simp), h.2.2 faceDegen ?_⟩
  simp only [draftAngles, rawDots, unitNormals, validSampleNormals, sampledNormals,
    effSamples, adaptiveSamples, faceDegen]
  norm_num [Vec3.magnitude, List.filter]

/-! ## Lemmas for the parting-line estimator -/

lemma pymaxNat_mem {l : List ℕ} (h : l ≠ []) : pymaxNat l ∈ l := by
  match l with
  | x :: xs => exact foldl_max_mem x xs

lemma foldlM_length_inv {f : List ℕ → ℝ → Option (List ℕ)}
    (hf : ∀ b z b', f b z = some b' → b'.length = b.length) :
    ∀ (zs : List ℝ) (init out : List ℕ),
      zs.foldlM f init = some out → out.length = init.length := by
  intro zs
  induction zs with
  | nil =>
    intro init out h
    simp only [List.foldlM_nil, Option.pure_def, Option.some.injEq] at h
    rw [h]
  | cons z zs ih =>
    intro init out h
    rw [List.foldlM_cons] at h
    cases hfz : f init z with
    | none => rw [hfz] at h; simp at h
    | some b =>
      rw [hfz] at h
      simp only [Option.bind_eq_bind, Option.bind_some] at h
      rw [ih b out h, hf init z b hfz]

lemma fillBins_length (zmin bs : ℝ) (zs : List ℝ) :
    ∀ bins, fillBins zmin bs zs = some bins → bins.length = 20 := by
  intro bins h
  have := @foldlM_length_inv (fun bins zc =>
      let idx := min (pyint ((zc - zmin) / bs)) 19
      match pyListIdx bins.length idx with
      | some k => some (bins.set k (bins.getD k 0 + 1))
      | none => none)
    (fun b z b' hb => by
      have hb' : (match pyListIdx b.length (min (pyint ((z - zmin) / bs)) 19) with
          | some k => some (b.set k (b.getD k 0 + 1))
          | none => none) = some b' := hb
      cases hk : pyListIdx b.length (min (pyint ((z - zmin) / bs)) 19) with
      | none => rw [hk] at hb'; simp at hb'
      | some k =>
        rw [hk] at hb'
        simp only [Option.some.injEq] at hb'
        rw [← hb', List.length_set])
    zs (List.replicate 20 0) bins h
  simpa using this

lemma histogramEstimate_bounds (b : Bbox) (zs : List ℝ) (hdz : b.dz > 0) :
    ∀ est, histogramEstimate b zs = some est →
      b.zmin ≤ est ∧ est ≤ b.zmax := by
  intro est h
  rw [histogramEstimate] at h
  simp only [if_pos hdz] at h
  cases hfb : fillBins b.zmin (b.dz / 20) zs with
  | none => rw [hfb] at h; simp at h
  | some bins =>
    rw [hfb] at h
    simp only [Option.map_some', Option.some.injEq] at h
    have hlen : bins.length = 20 := fillBins_length _ _ _ _ hfb
    have hne : bins ≠ [] := by
      intro h0; rw [h0] at hlen; simp at hlen
    have hidx : bins.indexOf (pymaxNat bins) < 20 := by
      rw [← hlen]
      exact List.indexOf_lt_length.mpr (pymaxNat_mem hne)
    have hidxR : (bins.indexOf (pymaxNat bins) : ℝ) ≤ 19 := by
      have : bins.indexOf (pymaxNat bins) ≤ 19 := Nat.lt_succ_iff.mp hidx
      exact_mod_cast this
    have hidxR0 : (0 : ℝ) ≤ (bins.indexOf (pymaxNat bins) : ℝ) := by positivity
    have hzmax : b.zmax = b.zmin + b.dz := by rw [Bbox.dz]; ring
    constructor
    · rw [← h]; nlinarith
    · rw [← h, hzmax]; nlinarith
/-! ## Claim C5 -/

/-- C5: whenever the silhouette method fails and the histogram fallback of
`estimate_parting_line` produces the parting coordinate from at least one
face centroid over a bounding box of positive `Z` extent, the result is the
center of the most populated of the 20 bins and lies within
`[zmin, zmax]`, and the method is reported as histogram.  (The parting
coordinate is a `Z` coordinate: the source computes this estimate along the
`Z` axis.) -/
theorem estimatePartingLine_histogram_in_bbox (edges : List Edge) (b : Bbox)
    (frs : List FaceResult) (dir : Vec3) (info : PartingInfo)
    (hdz : b.dz > 0) (hfrs : frs ≠ [])
    (hsil : silhouettePartingLine edges dir = none)
    (h : estimatePartingLine edges b frs dir = some info) :
    info.method = PartingMethod.histogram ∧
    b.zmin ≤ info.partingZ ∧ info.partingZ ≤ b.zmax := by
  have hne : (frs.map fun r => r.center.z).isEmpty = false := by
    cases frs with
    | nil => exact absurd rfl hfrs
    | cons a l => simp
  simp only [estimatePartingLine, hsil, hne, Bool.false_eq_true, if_false] at h
  cases hhe : histogramEstimate b (frs.map fun r => r.center.z) with
  | none => rw [hhe] at h; simp at h
  | some est =>
    rw [hhe] at h
    simp only [Option.map_some', Option.some.injEq] at h
    have hb := histogramEstimate_bounds b _ hdz est hhe
    rw [← h]
    exact ⟨rfl, hb.1, hb.2⟩

/-- C5 witness: one face result with centroid `(0,0,5)` over the box
`[0,20]` in `Z`; the histogram estimate exists and lies in the box. -/
theorem estimatePartingLine_histogram_in_bbox_witness :
    (estimatePartingLine [] bW [frW] unitZ).elim False
      (fun info => info.method = PartingMethod.histogram ∧
        bW.zmin ≤ info.partingZ ∧ info.partingZ ≤ bW.zmax) := by
  have hsil : silhouettePartingLine [] unitZ = none := by
    simp [silhouettePartingLine, silhouettePoints]
  have hbins : fillBins bW.zmin (20 / 20) [(5 : ℝ)] =
      some ((List.replicate 20 0).set 5 1) := by
    simp only [fillBins, List.foldlM_cons, List.foldlM_nil]
    have hpy : pyint (((5 : ℝ) - bW.zmin) / (20 / 20)) = 5 := by
      rw [pyint, if_neg (by norm_num [bW])]
      norm_num [bW]
    rw [hpy]
    norm_num [pyListIdx]
    rfl
  have hest : histogramEstimate bW [(5 : ℝ)] = some (11 / 2) := by
    rw [histogramEstimate]
    have hdz20 : (if bW.dz > 0 then bW.dz else 1) = 20 := by
      norm_num [Bbox.dz, bW]
    simp only [hdz20, hbins, Option.map_some']
    have hidx : ((List.replicate 20 0).set 5 1).indexOf
        (pymaxNat ((List.replicate 20 0).set 5 1)) = 5 := by decide
    rw [hidx]
    norm_num [bW]
  have hcomp : estimatePartingLine [] bW [frW] unitZ =
      some { partingZ := 11 / 2, zMid := 10, upperCount := 0, lowerCount := 0,
             verticalCount := 0, verticalIds := [], silhouettePts := [],
             method := .histogram } := by
    have hc : frW.center.z = (5 : ℝ) := rfl
    simp only [estimatePartingLine, hsil, List.map_cons, List.map_nil, hc,
      List.isEmpty_cons, Bool.false_eq_true, if_false, hest, Option.map_some',
      Option.some.injEq]
    have hemp : frW.normals.isEmpty = true := rfl
    simp only [List.filter_cons, hemp, Bool.not_true, List.filter_nil]
    norm_num [bW]
  rw [hcomp]
  exact estimatePartingLine_histogram_in_bbox [] bW [frW] unitZ _
    (by norm_num [Bbox.dz, bW]) (by simp) hsil hcomp


/-! ## Claim C4 -/
lemma silhouettePoints_edgeC4 :
    silhouettePoints [edgeC4] dirX =
      [⟨0, 0, 7⟩, ⟨1/5, 0, 7⟩, ⟨2/5, 0, 7⟩, ⟨3/5, 0, 7⟩, ⟨4/5, 0, 7⟩,
        ⟨1, 0, 7⟩] := by
  have hmag1 : (⟨1, 0, 0⟩ : Vec3).magnitude = 1 := by
    rw [Vec3.magnitude]; norm_num
  have hmag2 : (⟨-1, 0, 0⟩ : Vec3).magnitude = 1 := by
    rw [Vec3.magnitude]; norm_num
  have hdot1 : Vec3.dot (Vec3.normalize ⟨1, 0, 0⟩) dirX = 1 := by
    rw [Vec3.normalize, hmag1]
    norm_num [Vec3.smul, Vec3.dot, dirX]
  have hdot2 : Vec3.dot (Vec3.normalize ⟨-1, 0, 0⟩) dirX = -1 := by
    rw [Vec3.normalize, hmag2]
    norm_num [Vec3.smul, Vec3.dot, dirX]
  have h6 : List.range 6 = [0, 1, 2, 3, 4, 5] := rfl
  simp only [silhouettePoints, List.flatMap_cons, List.flatMap_nil,
    List.append_nil, edgeSilhouettePoints, edgeC4, h6]
  rw [if_neg (by norm_num), if_neg (by rw [hmag1, hmag2]; norm_num),
    if_pos (by rw [hdot1, hdot2]; norm_num)]
  norm_num

/-- C4 counterexample: with opening direction X, the silhouette method
succeeds on `edgeC4` but `estimate_parting_line` returns the mean `7` of the
silhouette points' Z components, not the mean `1/2` of their opening-axis
(X) components as the claim states for every opening direction. -/
theorem estimatePartingLine_not_opening_axis_mean :
    (estimatePartingLine [edgeC4] bW [] dirX).map PartingInfo.method =
      some PartingMethod.silhouette ∧
    (estimatePartingLine [edgeC4] bW [] dirX).map PartingInfo.partingZ =
      some 7 ∧
    avgList ((silhouettePoints [edgeC4] dirX).map Vec3.x) = 1 / 2 ∧
    (7 : ℝ) ≠ 1 / 2 := by
  have hsilp : silhouettePartingLine [edgeC4] dirX =
      some (silhouettePoints [edgeC4] dirX, 7) := by
    rw [silhouettePartingLine,
      if_pos (by rw [silhouettePoints_edgeC4]; norm_num)]
    rw [silhouettePoints_edgeC4]
    norm_num [avgList]
  refine ⟨?_, ?_, ?_, by norm_num⟩
  · simp only [estimatePartingLine, hsilp, Option.map_some']
  · simp only [estimatePartingLine, hsilp, Option.map_some']
  · rw [silhouettePoints_edgeC4]
    norm_num [avgList]

/-- C4 (amended): whenever the silhouette method collects at least 3 points,
`estimate_parting_line` reports method silhouette and returns the arithmetic
mean of the collected points' Z components (the source hard-codes the Z
axis; for the default opening direction Z this is the opening-axis
component); with fewer than 3 points it falls back to the histogram method
and any produced result reports method histogram. -/
theorem estimatePartingLine_silhouette_mean_and_fallback
    (edges : List Edge) (b : Bbox) (frs : List FaceResult) (dir : Vec3) :
    (3 ≤ (silhouettePoints edges dir).length →
      (estimatePartingLine edges b frs dir).map PartingInfo.method =
        some PartingMethod.silhouette ∧
      (estimatePartingLine edges b frs dir).map PartingInfo.partingZ =
        some (avgList ((silhouettePoints edges dir).map Vec3.z)) ∧
      (estimatePartingLine edges b frs dir).map PartingInfo.silhouettePts =
        some (silhouettePoints edges dir)) ∧
    ((silhouettePoints edges dir).length < 3 →
      ∀ info, estimatePartingLine edges b frs dir = some info →
        info.method = PartingMethod.histogram) := by
  constructor
  · intro h3
    have hsilp : silhouettePartingLine edges dir =
        some (silhouettePoints edges dir,
          avgList ((silhouettePoints edges dir).map Vec3.z)) := by
      rw [silhouettePartingLine, if_pos h3]
    refine ⟨?_, ?_, ?_⟩ <;>
      simp only [estimatePartingLine, hsilp, Option.map_some']
  · intro h3 info hinfo
    have hsilp : silhouettePartingLine edges dir = none := by
      rw [silhouettePartingLine, if_neg (by omega)]
    by_cases hemp : (frs.map fun r => r.center.z).isEmpty
    · simp only [estimatePartingLine, hsilp, hemp, if_true,
        Option.some.injEq] at hinfo
      rw [← hinfo]
    · simp only [estimatePartingLine, hsilp, Bool.not_eq_true] at hinfo
      rw [Bool.not_eq_true] at hemp
      simp only [hemp, Bool.false_eq_true, if_false] at hinfo
      cases hhe : histogramEstimate b (frs.map fun r => r.center.z) with
      | none => rw [hhe] at hinfo; simp at hinfo
      | some est =>
        rw [hhe] at hinfo
        simp only [Option.map_some', Option.some.injEq] at hinfo
        rw [← hinfo]

/-- C4 witness: the silhouette branch instantiated on `edgeC4` (6 points
collected), and the fallback branch instantiated on an empty edge list. -/
theorem estimatePartingLine_silhouette_mean_and_fallback_witness :
    ((estimatePartingLine [edgeC4] bW [] dirX).map PartingInfo.method =
        some PartingMethod.silhouette ∧
      (estimatePartingLine [edgeC4] bW [] dirX).map PartingInfo.partingZ =
        some (avgList ((silhouettePoints [edgeC4] dirX).map Vec3.z)) ∧
      (estimatePartingLine [edgeC4] bW [] dirX).map PartingInfo.silhouettePts =
        some (silhouettePoints [edgeC4] dirX)) ∧
    (estimatePartingLine [] bW [] unitZ).elim False
      (fun i => i.method = PartingMethod.histogram) := by
  constructor
  · exact (estimatePartingLine_silhouette_mean_and_fallback
      [edgeC4] bW [] dirX).1 (by rw [silhouettePoints_edgeC4]; norm_num)
  · have h0 : (silhouettePoints [] unitZ).length < 3 := by
      simp [silhouettePoints]
    have hcomp : estimatePartingLine [] bW [] unitZ =
        some { partingZ := 10, zMid := 10, upperCount := 0, lowerCount := 0,
               verticalCount := 0, verticalIds := [], silhouettePts := [],
               method := .histogram } := by
      have hsilp : silhouettePartingLine [] unitZ = none := by
        simp [silhouettePartingLine, silhouettePoints]
      simp only [estimatePartingLine, hsilp, List.map_nil, List.isEmpty_nil,
        if_true, List.filter_nil, List.length_nil, Option.some.injEq]
      norm_num [bW]
    rw [hcomp]
    exact (estimatePartingLine_silhouette_mean_and_fallback
      [] bW [] unitZ).2 h0 _ hcomp

lemma undercutOfFace_eq_spec (pz : ℝ) (r : FaceResult) :
    undercutOfFace pz r = specUndercutRule pz r := by
  rw [undercutOfFace, specUndercutRule]
  by_cases hemp : r.normals.isEmpty
  · simp [hemp]
  · simp only [hemp, Bool.false_eq_true, if_false]
    by_cases h80 : r.avgDraft > 80
    · simp [h80]
    · simp only [h80, if_false]
      by_cases h1 : r.center.z > pz ∧
          avgList (r.normals.map Vec3.z) < -0.1 ∧ r.avgDraft < 45
      · have h2 : ¬(r.center.z < pz ∧
            avgList (r.normals.map Vec3.z) > 0.1 ∧ r.avgDraft < 45) := by
          intro h2
          exact absurd h1.1 (by linarith [h2.1])
        simp only [if_pos h1, if_neg h2]
        simp
      · by_cases h2 : r.center.z < pz ∧
            avgList (r.normals.map Vec3.z) > 0.1 ∧ r.avgDraft < 45
        · simp only [if_neg h1, if_pos h2]
          simp
        · simp only [if_neg h1, if_neg h2]
          by_cases h05 : r.avgDraft < 0.5
          · simp [h05]
          · by_cases hU : r.isUndercut <;> simp [h05, hU]

/-- C6 (amended): `detect_undercuts` equals one `filterMap` pass of the
ordered first-match rule — skip faces with no valid samples or
`avg_draft > 80`; cavity-side, then core-side, then insufficient-draft, then
the mixed-normal flag, each measured along the Z axis (the source ignores
its `opening_dir` parameter and hard-codes Z) — hence the output is the
union of the flag-based and rule-based findings with at most one record per
face. -/
theorem detectUndercuts_first_match_rule (rs : List FaceResult) (pz : ℝ)
    (dir : Vec3) :
    detectUndercuts rs pz dir = rs.filterMap (specUndercutRule pz) ∧
    (detectUndercuts rs pz dir).length ≤ rs.length := by
  have hfg : undercutOfFace pz = specUndercutRule pz :=
    funext fun r => undercutOfFace_eq_spec pz r
  constructor
  · rw [detectUndercuts, hfg]
  · rw [detectUndercuts]
    exact List.length_filterMap_le _ _

/-- C6 counterexample: with opening direction X, `frC6` satisfies every
cavity-side condition of the claim read along the opening axis — centroid
above the parting coordinate, average normal opening-axis component below
`-0.1`, `avg_draft < 45`, not skipped — yet `detect_undercuts` emits no
record at all, because the source reads Z components regardless of the
opening direction. -/
theorem detectUndercuts_not_opening_axis :
    frC6.center.x > 0 ∧
    avgList (frC6.normals.map Vec3.x) < -0.1 ∧
    frC6.avgDraft < 45 ∧
    ¬ frC6.avgDraft > 80 ∧
    frC6.normals ≠ [] ∧
    detectUndercuts [frC6] 0 dirX = [] := by
  refine ⟨by norm_num [frC6], ?_, by norm_num [frC6], by norm_num [frC6],
    by simp [frC6], ?_⟩
  · norm_num [frC6, avgList]
  · rw [detectUndercuts, List.filterMap_cons]
    have h : undercutOfFace 0 frC6 = none := by
      rw [undercutOfFace]
      have hz : avgList (frC6.normals.map Vec3.z) = 0 := by
        norm_num [frC6, avgList]
      simp only [hz, frC6]
      norm_num
    rw [h]
    simp
/-! ## Claim C7 -/

/-- C7: the returned thickness ratio equals `max_t / min_t` when
`min_t > 0.01` and `max_t / 0.01` otherwise; the denominator
`max(min_t, 0.01)` is strictly positive, so the computation never divides
by exactly zero; and when no sample succeeds, `min_t = max_t = 0` and the
ratio is `0 / 0.01 = 0`. -/
theorem thicknessRatio_formula (faces : List (List (List ℝ))) :
    thicknessRatio faces =
      (if minT faces > 0.01 then maxT faces / minT faces
       else maxT faces / 0.01) ∧
    0 < max (minT faces) 0.01 ∧
    ((allThicknesses faces).isEmpty = true →
      minT faces = 0 ∧ maxT faces = 0 ∧ thicknessRatio faces = 0) := by
  refine ⟨?_, ?_, fun hemp => ?_⟩
  · by_cases h : minT faces > 0.01
    · rw [if_pos h, thicknessRatio, max_eq_left h.le]
    · rw [if_neg h, thicknessRatio, max_eq_right (not_lt.mp h)]
  · have : (0.01 : ℝ) ≤ max (minT faces) 0.01 := le_max_right _ _
    linarith
  · have hmin : minT faces = 0 := by rw [minT, if_pos hemp]
    have hmax : maxT faces = 0 := by rw [maxT, if_pos hemp]
    refine ⟨hmin, hmax, ?_⟩
    rw [thicknessRatio, hmax, zero_div]

/-- C7 witness: the empty run — no faces, hence no successful samples —
instantiates the no-sample clause: `min = max = 0` and ratio `0`. -/
theorem thicknessRatio_formula_witness :
    thicknessRatio [] = (if minT [] > 0.01 then maxT [] / minT []
      else maxT [] / 0.01) ∧
    minT [] = 0 ∧ maxT [] = 0 ∧ thicknessRatio [] = 0 := by
  have h := thicknessRatio_formula []
  exact ⟨h.1, h.2.2 (by simp [allThicknesses])⟩

/-! ## Lemmas for the slide-core planner -/

lemma headI_mem {α : Type*} [Inhabited α] {l : List α} (h : l ≠ []) :
    l.headI ∈ l := by
  cases l with
  | nil => exact absurd rfl h
  | cons a l => simp

lemma inv_sqrt2_sq : (1 / Real.sqrt 2) ^ 2 = 1 / 2 := by
  rw [div_pow, one_pow, Real.sq_sqrt (by norm_num : (0 : ℝ) ≤ 2)]

lemma canonicalDirections_ne_nil (axis : Fin 3) :
    canonicalDirections axis ≠ [] := by
  rw [canonicalDirections]
  split_ifs <;> simp

lemma nearestCanonical_mem (d : Vec3) (axis : Fin 3) :
    (nearestCanonical d axis).2 ∈ (canonicalDirections axis).map Prod.snd := by
  rw [nearestCanonical]
  cases hfind : (canonicalDirections axis).find? fun nc =>
      decide (nc.1 = ((canonicalDirections axis).foldl
        (fun acc nc =>
          if Vec3.dot d nc.2 > acc.2 then (nc.1, Vec3.dot d nc.2) else acc)
        (((canonicalDirections axis).headI).1, -999)).1) with
  | none =>
    simp only [Option.getD_none]
    exact List.mem_map.mpr
      ⟨_, headI_mem (canonicalDirections_ne_nil axis), rfl⟩
  | some pr =>
    simp only [Option.getD_some]
    exact List.mem_map.mpr ⟨pr, List.mem_of_find?_eq_some hfind, rfl⟩

lemma canonicalDirections_unit_orth (axis : Fin 3) :
    ∀ nc ∈ canonicalDirections axis,
      nc.2.magnitude = 1 ∧ nc.2.nth axis = 0 := by
  intro nc hnc
  fin_cases axis <;> fin_cases hnc <;> refine ⟨?_, ?_⟩ <;>
    norm_num [Vec3.magnitude, Vec3.nth, neg_div, neg_sq, inv_sqrt2_sq]

/-! ## Claim C8 -/

/-- C8: every slide emitted by `analyze_slide_cores` has a direction vector
drawn from the 8 canonical directions of the chosen opening axis; each such
vector is a unit vector with zero component along the opening axis. -/
theorem analyzeSlideCores_direction_canonical (groups : List (List UcData))
    (b : Bbox) (pz : ℝ) (axis : Fin 3) :
    ∀ s ∈ analyzeSlideCores groups b pz axis,
      s.directionVector ∈ (canonicalDirections axis).map Prod.snd ∧
      s.directionVector.magnitude = 1 ∧
      s.directionVector.nth axis = 0 := by
  intro s hs
  have hs' : s ∈ groups.enum.filterMap
      fun p => slideOfGroup b pz axis p.1 p.2 := by
    have hperm := List.mergeSort_perm
      (groups.enum.filterMap fun p => slideOfGroup b pz axis p.1 p.2)
      (fun s t => decide (t.totalArea ≤ s.totalArea))
    exact hperm.mem_iff.mp hs
  rw [List.mem_filterMap] at hs'
  obtain ⟨p, _, hp⟩ := hs'
  rw [slideOfGroup] at hp
  by_cases hne : (p.2.flatMap UcData.normals).isEmpty
  · rw [if_pos hne] at hp
    exact absurd hp (by simp)
  · rw [if_neg hne] at hp
    simp only [Option.some.injEq] at hp
    have hdir : s.directionVector =
        (nearestCanonical
          (computeSlideDirection (p.2.flatMap UcData.normals) axis) axis).2 := by
      rw [← hp]
    have hmem := nearestCanonical_mem
      (computeSlideDirection (p.2.flatMap UcData.normals) axis) axis
    obtain ⟨nc, hnc, hv⟩ := List.mem_map.mp hmem
    have huo := canonicalDirections_unit_orth axis nc hnc
    rw [hdir]
    exact ⟨hmem, by rw [← hv]; exact huo.1, by rw [← hv]; exact huo.2⟩

/-- C8 witness: a single one-face group with normal `(1,0,0)` and opening
axis Z produces a slide whose direction vector is unit with zero Z
component. -/
theorem analyzeSlideCores_direction_canonical_witness :
    analyzeSlideCores [groupW] bW 0 2 ≠ [] ∧
    (analyzeSlideCores [groupW] bW 0 2).headI.directionVector.magnitude = 1 ∧
    (analyzeSlideCores [groupW] bW 0 2).headI.directionVector.nth 2 = 0 := by
  have hsome : ∃ s, slideOfGroup bW 0 2 0 groupW = some s := by
    rw [slideOfGroup, if_neg (by rw [groupW]; simp)]
    exact ⟨_, rfl⟩
  obtain ⟨s0, hs0⟩ := hsome
  have hne : analyzeSlideCores [groupW] bW 0 2 ≠ [] := by
    have hlist : [groupW].enum.filterMap
        (fun p => slideOfGroup bW 0 2 p.1 p.2) = [s0] := by
      have he : ([groupW] : List (List UcData)).enum = [(0, groupW)] := rfl
      rw [he, List.filterMap_cons, hs0]
      rfl
    rw [analyzeSlideCores, hlist]
    intro h0
    have hlen := (List.mergeSort_perm [s0]
      (fun s t => decide (t.totalArea ≤ s.totalArea))).length_eq
    rw [h0] at hlen
    simp at hlen
  have h := analyzeSlideCores_direction_canonical [groupW] bW 0 2
    ((analyzeSlideCores [groupW] bW 0 2).headI) (headI_mem hne)
  exact ⟨hne, h.2.1, h.2.2⟩

/-! ## Lemmas for the clustering pass -/

lemma sub_def (a b : Vec3) : a - b = Vec3.sub a b := rfl

lemma magnitude_sub_self (a : Vec3) : (a - a).magnitude = 0 := by
  simp [sub_def, Vec3.sub, Vec3.magnitude]

lemma magnitude_sub_comm (a b : Vec3) :
    (a - b).magnitude = (b - a).magnitude := by
  simp only [sub_def, Vec3.sub, Vec3.magnitude]
  congr 1
  ring

lemma magnitude_add_le (u v : Vec3) :
    (Vec3.add u v).magnitude ≤ u.magnitude + v.magnitude := by
  have hu : 0 ≤ u.x ^ 2 + u.y ^ 2 + u.z ^ 2 := by positivity
  have hv : 0 ≤ v.x ^ 2 + v.y ^ 2 + v.z ^ 2 := by positivity
  have hA : u.magnitude ^ 2 = u.x ^ 2 + u.y ^ 2 + u.z ^ 2 := Real.sq_sqrt hu
  have hB : v.magnitude ^ 2 = v.x ^ 2 + v.y ^ 2 + v.z ^ 2 := Real.sq_sqrt hv
  have hA0 : 0 ≤ u.magnitude := Real.sqrt_nonneg _
  have hB0 : 0 ≤ v.magnitude := Real.sqrt_nonneg _
  have hCS : (u.x * v.x + u.y * v.y + u.z * v.z) ^ 2 ≤
      (u.x ^ 2 + u.y ^ 2 + u.z ^ 2) * (v.x ^ 2 + v.y ^ 2 + v.z ^ 2) := by
    nlinarith [sq_nonneg (u.x * v.y - u.y * v.x),
      sq_nonneg (u.x * v.z - u.z * v.x), sq_nonneg (u.y * v.z - u.z * v.y)]
  have hdot : u.x * v.x + u.y * v.y + u.z * v.z ≤
      u.magnitude * v.magnitude := by
    have h1 : (u.x * v.x + u.y * v.y + u.z * v.z) ^ 2 ≤
        (u.magnitude * v.magnitude) ^ 2 := by
      rw [mul_pow, hA, hB]; exact hCS
    have h2 : 0 ≤ u.magnitude * v.magnitude := mul_nonneg hA0 hB0
    calc u.x * v.x + u.y * v.y + u.z * v.z
        ≤ |u.x * v.x + u.y * v.y + u.z * v.z| := le_abs_self _
      _ = Real.sqrt ((u.x * v.x + u.y * v.y + u.z * v.z) ^ 2) :=
          (Real.sqrt_sq_eq_abs _).symm
      _ ≤ Real.sqrt ((u.magnitude * v.magnitude) ^ 2) := Real.sqrt_le_sqrt h1
      _ = u.magnitude * v.magnitude := Real.sqrt_sq h2
  have hsum : (u.x + v.x) ^ 2 + (u.y + v.y) ^ 2 + (u.z + v.z) ^ 2 ≤
      (u.magnitude + v.magnitude) ^ 2 := by
    have hexp : (u.magnitude + v.magnitude) ^ 2 =
        u.magnitude ^ 2 + 2 * (u.magnitude * v.magnitude) + v.magnitude ^ 2 := by
      ring
    rw [hexp, hA, hB]
    nlinarith [hdot]
  simp only [Vec3.add, Vec3.magnitude]
  calc Real.sqrt ((u.x + v.x) ^ 2 + (u.y + v.y) ^ 2 + (u.z + v.z) ^ 2)
      ≤ Real.sqrt ((u.magnitude + v.magnitude) ^ 2) := Real.sqrt_le_sqrt hsum
    _ = u.magnitude + v.magnitude := Real.sqrt_sq (by positivity)

lemma magnitude_sub_triangle (a b c : Vec3) :
    (a - c).magnitude ≤ (a - b).magnitude + (b - c).magnitude := by
  have h : a - c = Vec3.add (Vec3.sub a b) (Vec3.sub b c) := by
    simp only [sub_def, Vec3.sub, Vec3.add, Vec3.mk.injEq]
    refine ⟨by ring, by ring, by ring⟩
  rw [h, sub_def, sub_def]
  exact magnitude_add_le _ _

lemma sameGroupB_dist {dt at_ : ℝ} {s d : UcData}
    (h : sameGroupB dt at_ s d = true) :
    (s.center - d.center).magnitude ≤ dt := by
  rw [sameGroupB, Bool.and_eq_true] at h
  have h1 := h.1
  rw [Bool.not_eq_true', decide_eq_false_iff_not] at h1
  exact le_of_not_lt h1

lemma greedyGroups_mem_structure (dt at_ : ℝ) :
    ∀ (n : ℕ) (l : List UcData), l.length ≤ n →
      ∀ g ∈ greedyGroups dt at_ l,
        ∃ seed ms, g = seed :: ms ∧
          ∀ m ∈ ms, sameGroupB dt at_ seed m = true := by
  intro n
  induction n with
  | zero =>
    intro l hl g hg
    have : l = [] := List.length_eq_zero.mp (Nat.le_zero.mp hl)
    subst this
    rw [greedyGroups] at hg
    exact absurd hg (by simp)
  | succ n ih =>
    intro l hl g hg
    match l with
    | [] =>
      rw [greedyGroups] at hg
      exact absurd hg (by simp)
    | seed :: rest =>
      rw [greedyGroups] at hg
      rcases List.mem_cons.mp hg with rfl | hg'
      · exact ⟨seed, _, rfl, fun m hm => (List.mem_filter.mp hm).2⟩
      · refine ih (rest.filter fun d => !sameGroupB dt at_ seed d) ?_ g hg'
        have h1 := List.length_filter_le
          (fun d => !sameGroupB dt at_ seed d) rest
        have h2 : rest.length + 1 ≤ n + 1 := by
          simpa [List.length_cons] using hl
        omega

lemma greedyGroups_within {dt at_ : ℝ} (hdt : 0 ≤ dt) (l g : List UcData)
    (hg : g ∈ greedyGroups dt at_ l) (x y : UcData) (hx : x ∈ g)
    (hy : y ∈ g) : (x.center - y.center).magnitude ≤ 2 * dt := by
  obtain ⟨seed, ms, rfl, hms⟩ :=
    greedyGroups_mem_structure dt at_ l.length l le_rfl g hg
  rcases List.mem_cons.mp hx with rfl | hx' <;>
    rcases List.mem_cons.mp hy with rfl | hy'
  · rw [magnitude_sub_self]; linarith
  · have h := sameGroupB_dist (hms y hy')
    linarith
  · have h := sameGroupB_dist (hms x hx')
    rw [magnitude_sub_comm]
    linarith
  · have h1 := sameGroupB_dist (hms x hx')
    have h2 := sameGroupB_dist (hms y hy')
    have h1' : (x.center - seed.center).magnitude ≤ dt := by
      rw [magnitude_sub_comm]; exact h1
    have htri := magnitude_sub_triangle x.center seed.center y.center
    linarith

lemma greedyGroups_join_perm (dt at_ : ℝ) :
    ∀ (n : ℕ) (l : List UcData), l.length ≤ n →
      (greedyGroups dt at_ l).join.Perm l := by
  intro n
  induction n with
  | zero =>
    intro l hl
    have : l = [] := List.length_eq_zero.mp (Nat.le_zero.mp hl)
    subst this
    rw [greedyGroups]
    simp
  | succ n ih =>
    intro l hl
    match l with
    | [] =>
      rw [greedyGroups]
      simp
    | seed :: rest =>
      rw [greedyGroups]
      simp only [List.join_cons, List.cons_append]
      refine List.Perm.cons seed ?_
      have hu : (rest.filter fun d => !sameGroupB dt at_ seed d).length ≤ n := by
        have h1 := List.length_filter_le
          (fun d => !sameGroupB dt at_ seed d) rest
        have h2 : rest.length + 1 ≤ n + 1 := by
          simpa [List.length_cons] using hl
        omega
      exact List.Perm.trans
        (List.Perm.append_left _ (ih _ hu))
        (List.filter_append_perm _ rest)

/-! ## Claim C9 -/

/-- C9: Scenario C of the spec.  First part: two undercuts whose `uc_data`
entries are 5 mm apart with meaningful horizontal directions 10° apart are
merged into one cluster by `group_undercuts` at the default thresholds
(20 mm, 45°).  Second part: any two members of one cluster are at most
40 mm apart (each member lies within 20 mm of the cluster seed).  Third
part: consequently two undercuts whose centroids are 50 mm apart are never
placed in the same cluster, regardless of their directions. -/
theorem groupUndercuts_scenarioC :
    (∀ (u1 u2 : Undercut) (frs : List FaceResult),
      Vec3.magnitude ((toUcData frs 2 u1).center -
        (toUcData frs 2 u2).center) = 5 →
      (toUcData frs 2 u1).horizontalDir.magnitude > 0.1 →
      (toUcData frs 2 u2).horizontalDir.magnitude > 0.1 →
      degrees (Real.arccos (min |Vec3.dot (toUcData frs 2 u1).horizontalDir
        (toUcData frs 2 u2).horizontalDir| 1)) = 10 →
      groupUndercuts [u1, u2] frs 20 45 2 =
        [[toUcData frs 2 u1, toUcData frs 2 u2]]) ∧
    (∀ (ucs : List Undercut) (frs : List FaceResult) (axis : Fin 3)
        (g : List UcData) (x y : UcData),
      g ∈ groupUndercuts ucs frs 20 45 axis → x ∈ g → y ∈ g →
      Vec3.magnitude (x.center - y.center) ≤ 40) ∧
    (∀ (ucs : List Undercut) (frs : List FaceResult) (axis : Fin 3)
        (g : List UcData) (x y : UcData),
      g ∈ groupUndercuts ucs frs 20 45 axis → x ∈ g → y ∈ g →
      Vec3.magnitude (x.center - y.center) = 50 → False) := by
  have hwithin : ∀ (ucs : List Undercut) (frs : List FaceResult)
      (axis : Fin 3) (g : List UcData) (x y : UcData),
      g ∈ groupUndercuts ucs frs 20 45 axis → x ∈ g → y ∈ g →
      Vec3.magnitude (x.center - y.center) ≤ 40 := by
    intro ucs frs axis g x y hg hx hy
    rw [groupUndercuts] at hg
    by_cases hucs : ucs.isEmpty
    · rw [if_pos hucs] at hg
      exact absurd hg (by simp)
    · rw [if_neg hucs] at hg
      have := @greedyGroups_within 20 45 (by norm_num)
        (ucDataList ucs frs axis) g hg x y hx hy
      linarith
  refine ⟨?_, hwithin, ?_⟩
  · intro u1 u2 frs hdist hm1 hm2 hang
    have hb : sameGroupB 20 45 (toUcData frs 2 u1) (toUcData frs 2 u2) =
        true := by
      rw [sameGroupB]
      have c1 : ¬ (Vec3.magnitude ((toUcData frs 2 u1).center -
          (toUcData frs 2 u2).center) > 20) := by
        rw [hdist]; norm_num
      have c3 : ¬ (degrees (Real.arccos
          (min |Vec3.dot (toUcData frs 2 u1).horizontalDir
            (toUcData frs 2 u2).horizontalDir| 1)) > 45) := by
        rw [hang]; norm_num
      rw [decide_eq_false c1, decide_eq_true hm1, decide_eq_true hm2,
        decide_eq_false c3]
      rfl
    rw [groupUndercuts, if_neg (by simp)]
    simp only [ucDataList, List.map_cons, List.map_nil]
    rw [greedyGroups]
    simp only [List.filter, hb, Bool.not_true, greedyGroups]
  · intro ucs frs axis g x y hg hx hy h50
    have := hwithin ucs frs axis g x y hg hx hy
    rw [h50] at this
    norm_num at this

/-- C9 witness: the scenario instantiated concretely — centroids `(0,0,0)`
and `(5,0,0)` (5 mm apart), unit horizontal directions `(1,0,0)` and
`(cos 10°, sin 10°, 0)` (10° apart) — yields one cluster of both; and the
40 mm bound instantiated on a member pair of that cluster. -/
theorem groupUndercuts_scenarioC_witness :
    groupUndercuts [ucW1, ucW2] [frW1, frW2] 20 45 2 =
      [[toUcData [frW1, frW2] 2 ucW1, toUcData [frW1, frW2] 2 ucW2]] ∧
    Vec3.magnitude ((toUcData [frW1, frW2] 2 ucW1).center -
      (toUcData [frW1, frW2] 2 ucW1).center) ≤ 40 := by
  have hpi := Real.pi_pos
  have hc1 : (toUcData [frW1, frW2] 2 ucW1).center = ⟨0, 0, 0⟩ := rfl
  have hc2 : (toUcData [frW1, frW2] 2 ucW2).center = ⟨5, 0, 0⟩ := rfl
  have hd1 : (toUcData [frW1, frW2] 2 ucW1).horizontalDir = ⟨1, 0, 0⟩ := by
    have hln : lookupNormals [frW1, frW2] 1 = [⟨1, 0, 0⟩] := rfl
    have hmean : meanVec [(⟨1, 0, 0⟩ : Vec3)] = ⟨1, 0, 0⟩ := by
      norm_num [meanVec, avgList]
    have hmag : ((⟨1, 0, 0⟩ : Vec3).setZero 2).magnitude = 1 := by
      show (⟨1, 0, 0⟩ : Vec3).magnitude = 1
      rw [Vec3.magnitude]; norm_num
    show horizontalDirOf (lookupNormals [frW1, frW2] 1) 2 = ⟨1, 0, 0⟩
    rw [hln]
    simp only [horizontalDirOf, List.isEmpty_cons, Bool.false_eq_true,
      if_false, hmean, hmag]
    rw [if_pos (by norm_num)]
    norm_num [Vec3.smul, Vec3.setZero]
  have hd2 : (toUcData [frW1, frW2] 2 ucW2).horizontalDir =
      ⟨Real.cos (Real.pi / 18), Real.sin (Real.pi / 18), 0⟩ := by
    have hln : lookupNormals [frW1, frW2] 2 =
        [⟨Real.cos (Real.pi / 18), Real.sin (Real.pi / 18), 0⟩] := rfl
    have hmean : meanVec
        [(⟨Real.cos (Real.pi / 18), Real.sin (Real.pi / 18), 0⟩ : Vec3)] =
        ⟨Real.cos (Real.pi / 18), Real.sin (Real.pi / 18), 0⟩ := by
      norm_num [meanVec, avgList]
    have hmag : (((⟨Real.cos (Real.pi / 18), Real.sin (Real.pi / 18), 0⟩ :
        Vec3)).setZero 2).magnitude = 1 := by
      show (⟨Real.cos (Real.pi / 18), Real.sin (Real.pi / 18), 0⟩ :
        Vec3).magnitude = 1
      rw [Vec3.magnitude]
      have h1 : Real.cos (Real.pi / 18) ^ 2 + Real.sin (Real.pi / 18) ^ 2 +
          (0 : ℝ) ^ 2 = 1 := by
        rw [Real.cos_sq_add_sin_sq]; norm_num
      rw [h1, Real.sqrt_one]
    show horizontalDirOf (lookupNormals [frW1, frW2] 2) 2 =
      ⟨Real.cos (Real.pi / 18), Real.sin (Real.pi / 18), 0⟩
    rw [hln]
    simp only [horizontalDirOf, List.isEmpty_cons, Bool.false_eq_true,
      if_false, hmean, hmag]
    rw [if_pos (by norm_num)]
    norm_num [Vec3.smul, Vec3.setZero]
  have hdist : Vec3.magnitude ((toUcData [frW1, frW2] 2 ucW1).center -
      (toUcData [frW1, frW2] 2 ucW2).center) = 5 := by
    rw [hc1, hc2]
    have hsub : (⟨0, 0, 0⟩ : Vec3) - ⟨5, 0, 0⟩ = ⟨-5, 0, 0⟩ := by
      simp only [sub_def, Vec3.sub, Vec3.mk.injEq]
      norm_num
    rw [hsub, Vec3.magnitude,
      show ((-5 : ℝ) ^ 2 + 0 ^ 2 + 0 ^ 2) = 5 ^ 2 by norm_num,
      Real.sqrt_sq (by norm_num)]
  have hm1 : (toUcData [frW1, frW2] 2 ucW1).horizontalDir.magnitude > 0.1 := by
    rw [hd1, Vec3.magnitude]
    norm_num
  have hm2 : (toUcData [frW1, frW2] 2 ucW2).horizontalDir.magnitude > 0.1 := by
    rw [hd2, Vec3.magnitude]
    have h1 : Real.cos (Real.pi / 18) ^ 2 + Real.sin (Real.pi / 18) ^ 2 +
        (0 : ℝ) ^ 2 = 1 := by
      rw [Real.cos_sq_add_sin_sq]; norm_num
    rw [h1, Real.sqrt_one]
    norm_num
  have hang : degrees (Real.arccos
      (min |Vec3.dot (toUcData [frW1, frW2] 2 ucW1).horizontalDir
        (toUcData [frW1, frW2] 2 ucW2).horizontalDir| 1)) = 10 := by
    rw [hd1, hd2]
    have hdot : Vec3.dot (⟨1, 0, 0⟩ : Vec3)
        ⟨Real.cos (Real.pi / 18), Real.sin (Real.pi / 18), 0⟩ =
        Real.cos (Real.pi / 18) := by
      rw [Vec3.dot]; ring
    rw [hdot]
    have hcpos : 0 ≤ Real.cos (Real.pi / 18) :=
      Real.cos_nonneg_of_mem_Icc ⟨by linarith, by linarith⟩
    rw [abs_of_nonneg hcpos, min_eq_left (Real.cos_le_one _),
      Real.arccos_cos (by positivity) (by linarith)]
    rw [degrees]
    field_simp
    ring
  have hmain := groupUndercuts_scenarioC.1 ucW1 ucW2 [frW1, frW2]
    hdist hm1 hm2 hang
  refine ⟨hmain, ?_⟩
  exact groupUndercuts_scenarioC.2.1 [ucW1, ucW2] [frW1, frW2] 2
    [toUcData [frW1, frW2] 2 ucW1, toUcData [frW1, frW2] 2 ucW2]
    (toUcData [frW1, frW2] 2 ucW1) (toUcData [frW1, frW2] 2 ucW1)
    (by rw [hmain]; exact List.mem_singleton.mpr rfl)
    (by simp) (by simp)

/-! ## Claim C10 -/

/-- C10: the groups returned by `group_undercuts` partition the `uc_data`
list built from the input: the concatenation of the groups is a permutation
of it (so every input undercut lands in exactly one group, counted with
multiplicity, and nothing else appears), and every group is non-empty.
Each `uc_data` entry carries over the undercut's face id, centroid, area
and reason by construction (`toUcData`). -/
theorem groupUndercuts_partition (ucs : List Undercut)
    (frs : List FaceResult) (distTh angleTh : ℝ) (axis : Fin 3) :
    (groupUndercuts ucs frs distTh angleTh axis).join.Perm
      (ucDataList ucs frs axis) ∧
    ∀ g ∈ groupUndercuts ucs frs distTh angleTh axis, g ≠ [] := by
  rw [groupUndercuts]
  by_cases hucs : ucs.isEmpty
  · rw [if_pos hucs]
    have : ucs = [] := by
      cases ucs with
      | nil => rfl
      | cons a l => simp at hucs
    subst this
    exact ⟨by simp [ucDataList], by simp⟩
  · rw [if_neg hucs]
    constructor
    · exact greedyGroups_join_perm distTh angleTh
        (ucDataList ucs frs axis).length _ le_rfl
    · intro g hg
      obtain ⟨seed, ms, rfl, _⟩ := greedyGroups_mem_structure distTh angleTh
        (ucDataList ucs frs axis).length _ le_rfl g hg
      simp

/-- C10 witness: a single undercut with no matching face result yields the
single group containing its `uc_data` entry. -/
theorem groupUndercuts_partition_witness :
    (groupUndercuts [ucW1] [] 20 45 2).join.Perm (ucDataList [ucW1] [] 2) ∧
    [toUcData [] 2 ucW1] ≠ [] := by
  have h := groupUndercuts_partition [ucW1] [] 20 45 2
  refine ⟨h.1, h.2 [toUcData [] 2 ucW1] ?_⟩
  rw [groupUndercuts, if_neg (by simp)]
  simp only [ucDataList, List.map_cons, List.map_nil]
  rw [greedyGroups]
  simp [greedyGroups]

end MoldAnalyzer
